import Mathlib

/-!
Shallow embedding of the ecommerce backend (Django REST application) and
verification of its specification claims.

The relational store is modelled as plain Lean lists of records, one list per
table.  Django querysets become list filters; `DecimalField` money amounts
become `Int` (a fixed-point integer number of minor units); unbounded
`while`-loops over parent pointers become fuel-bounded recursion, with the
fuel set to the number of rows (the spec's own bound for acyclic chains).
-/

namespace ECommerce

/-- Row of the category table (src/categories/models.py, `Category`).
`parent` is the nullable self-referential foreign key (stored as the parent's
primary key), `company` the nullable foreign key to the company table.
The image field and the timestamps are omitted: no modelled operation reads
them. -/
structure Category where
  id : Nat
  name : String
  description : String
  parent : Option Nat
  company : Option Nat
  order : Int
  is_active : Bool
  created_at : Nat
deriving Repr, DecidableEq

/-- Row of the product table (src/products/models.py, `Product`).  `price` is
the decimal price in minor units; `category` and `seller` are foreign keys.
The product model declares no `company` field (this matters for claim C8).
The free-text attribute fields `weight`/`dimensions`/`color`/`material` and
`updated_at` are omitted: no modelled operation reads them. -/
structure Product where
  id : Nat
  title : String
  seller_code : String
  description : String
  price : Int
  category : Nat
  seller : Nat
  in_stock : Bool
  brand : String
  is_active : Bool
  is_featured : Bool
  created_at : Nat
deriving Repr, DecidableEq

/-- Row of the order table (src/orders/models.py, `Order`).  The three money
columns are stored values, as in the model. -/
structure Order where
  user : Nat
  order_number : String
  status : String
  payment_method : String
  subtotal : Int
  delivery_fee : Int
  total_amount : Int
  delivery_address : String
  delivery_phone : String
deriving Repr, DecidableEq

/-- Row of the order-item table (src/orders/models.py, `OrderItem`).
`price` is the product's price captured at order-creation time. -/
structure OrderItem where
  product : Nat
  quantity : Nat
  price : Int
deriving Repr, DecidableEq

/-- Derived item total (src/orders/models.py, `OrderItem.total_price`):
`quantity * price`, reading only the item's own stored columns. -/
def OrderItem.total_price (it : OrderItem) : Int :=
  (it.quantity : Int) * it.price

/-- Validation failures raised by the serializers (§7 of the spec). -/
inductive ValidationError where
  | selfParent
  | circularParent
  | duplicateSellerCode
deriving Repr, DecidableEq

/-- Request-level failures: ORM errors for references to missing model
fields/relations (`FieldError`/`AttributeError`), the `ValueError` a bare
`int()` raises on a malformed number, and the explicit 400 the product
search returns on an empty query. -/
inductive ApiError where
  | fieldError
  | attributeError
  | typeError
  | valueError
  | emptySearchQuery
deriving Repr, DecidableEq

/-! ## Category parent chains -/

/-- Primary keys present in the category table. -/
def idsOf (db : List Category) : List Nat := db.map (·.id)

/-- Look a category up by primary key (`Category.objects.get(id=i)` /
following an object reference). -/
def getCategory (db : List Category) (i : Nat) : Option Category :=
  db.find? (fun c => c.id == i)

/-- The stored parent id of the category with id `i` (`obj.parent`), `none`
when the row is absent or parentless. -/
def parentOf (db : List Category) (i : Nat) : Option Nat :=
  (getCategory db i).bind (fun c => c.parent)

/-- Iterated parent walk: `n`-fold application of `parentOf`; `none` once the walk has passed a
parentless node (or left the table). -/
def iterParent (db : List Category) : Nat → Nat → Option Nat
  | 0, i => some i
  | n + 1, i => (iterParent db n i).bind (parentOf db)

/-- The list `[parent i, parent² i, …]` of strict ancestors of `i`, cut off
after `fuel` hops.  This is the sequence the `while current_parent:` loop of
`CategoryCreateSerializer.validate` visits; with `fuel` at least the table
size it is the whole loop on any acyclic table. -/
def ancestorChain (db : List Category) : Nat → Nat → List Nat
  | 0, _ => []
  | fuel + 1, i =>
    match parentOf db i with
    | none => []
    | some p => p :: ancestorChain db fuel p

/-- Walking `parent` from `i` reaches a parentless node within `fuel` hops. -/
def reachesRoot (db : List Category) (fuel i : Nat) : Bool :=
  (iterParent db fuel i).isNone

/-- Re-parenting validation of `CategoryCreateSerializer.validate`
(src/categories/serializers.py lines 96-110), update case (`self.instance`
set).  A proposed parent equal to the instance fails as a self-parent; an
instance id found while walking up from the proposed parent fails as a
circular relationship; otherwise the attrs pass. -/
def validateCategoryParent (db : List Category) (instanceId : Nat)
    (parent : Option Nat) : Except ValidationError Unit :=
  match parent with
  | none => .ok ()
  | some p =>
    if p = instanceId then .error .selfParent
    else if instanceId ∈ ancestorChain db db.length p then .error .circularParent
    else .ok ()

/-- Relation `IsDescendant db a i`: the category `i` lies strictly below `a`, i.e.
`a` is reached from `i` by one or more `parent` hops. -/
inductive IsDescendant (db : List Category) : Nat → Nat → Prop
  | base {i a : Nat} : parentOf db i = some a → IsDescendant db a i
  | step {i j a : Nat} : parentOf db i = some j → IsDescendant db a j →
      IsDescendant db a i

/-- Foreign-key closure: every stored parent id is a key of the table. -/
def FkClosed (db : List Category) : Prop :=
  ∀ c ∈ db, ∀ q, c.parent = some q → q ∈ idsOf db

/-- The parent walk from `i` terminates at some fuel. -/
def TerminatesAny (db : List Category) (i : Nat) : Prop :=
  ∃ f, iterParent db f i = none

/-- Table invariant maintained by the category operations: distinct primary
keys, foreign-key closure, and terminating parent chains. -/
def CatInv (db : List Category) : Prop :=
  (idsOf db).Nodup ∧ FkClosed db ∧ ∀ i ∈ idsOf db, TerminatesAny db i

/-- Row transformation performed by a parent update: the row with primary key
`A` gets the new parent, all other rows are untouched. -/
def reparentRow (A : Nat) (p : Option Nat) (c : Category) : Category :=
  if c.id = A then { c with parent := p } else c

/-- Effect on the table of persisting an update of category `A`'s parent. -/
def updateParentField (db : List Category) (A : Nat) (p : Option Nat) :
    List Category :=
  db.map (reparentRow A p)

/-- One category write operation, as exposed by
`CategoryCreateSerializer` (src/categories/serializers.py): a create inserts
a row with a fresh primary key (the store allocates it) whose parent, if any,
is an existing row (the foreign key is resolved by the framework before
`validate` runs; `validate` itself skips the cycle check when
`self.instance` is absent); an update re-parents an existing row and is only
persisted when `validate` passes. -/
inductive CatStep : List Category → List Category → Prop
  | create {db : List Category} (cat : Category) :
      cat.id ∉ idsOf db →
      (∀ q, cat.parent = some q → q ∈ idsOf db) →
      CatStep db (cat :: db)
  | update {db : List Category} (A : Nat) (p : Option Nat) :
      validateCategoryParent db A p = .ok () →
      (∀ q, p = some q → q ∈ idsOf db) →
      CatStep db (updateParentField db A p)

/-- States of the category table reachable from the empty table through the
create/update operations. -/
inductive CatReachable : List Category → Prop
  | init : CatReachable []
  | step {db db' : List Category} :
      CatReachable db → CatStep db db' → CatReachable db'

/-- Three-row category table `1 ← 2 ← 3` used as a concrete witness state. -/
def dbChain3 : List Category :=
  [⟨1, "root", "", none, none, 0, true, 0⟩,
   ⟨2, "mid", "", some 1, none, 0, true, 1⟩,
   ⟨3, "leaf", "", some 2, none, 0, true, 2⟩]

/-- Two root categories, inserted one after the other (witness input). -/
def catW1 : Category := ⟨1, "a", "", none, none, 0, true, 0⟩

/-- Second inserted root category (witness input). -/
def catW2 : Category := ⟨2, "b", "", none, none, 0, true, 0⟩

/-- Witness state: category 2 re-parented under category 1 after two
creates, i.e. the table reached by create, create, update. -/
def dbW : List Category := updateParentField [catW2, catW1] 2 (some 1)

/-! ## Product catalog -/

/-- Row filter of the product viewset's base queryset
(src/products/views.py lines 21-23): only active products are ever served.
The same statement also chains `select_related('category', 'seller',
'company')`; since `Product` has no `company` field that clause makes every
evaluation of the queryset raise `FieldError` — that request-level failure
is carried by `productSelectRelated` / `productListRequest` below (claims
C6, C8, C10), while this definition is the row semantics the filter stages
operate on. -/
def productBase (ps : List Product) : List Product :=
  ps.filter (fun p => p.is_active)

/-- Query parameters read by `ProductViewSet.get_queryset`
(src/products/views.py lines 53-60).  Ids and prices arrive as request
strings; they are modelled already parsed because the category/company
lookups and price comparisons coerce them, while `in_stock`, `featured`
and `brand` keep their raw string form, which the code inspects itself. -/
structure ProductListParams where
  category : Option Nat
  company : Option Nat
  min_price : Option Int
  max_price : Option Int
  in_stock : Option String
  featured : Option String
  brand : Option String
deriving Repr, DecidableEq

/-- Parameter record with no filter supplied. -/
def noParams : ProductListParams :=
  ⟨none, none, none, none, none, none, none⟩

/-- Parameter record carrying only a category filter. -/
def onlyCategoryParams (cid : Nat) : ProductListParams :=
  ⟨some cid, none, none, none, none, none, none⟩

/-- Parameter record carrying only a company filter. -/
def onlyCompanyParams (co : Nat) : ProductListParams :=
  ⟨none, some co, none, none, none, none, none⟩

/-- Drop leading ASCII whitespace from a character list. -/
def dropLeadingWs : List Char → List Char
  | [] => []
  | c :: t =>
    if c == ' ' || c == '\t' || c == '\n' || c == '\r' then dropLeadingWs t
    else c :: t

/-- Python's `str.strip()`: remove surrounding whitespace. -/
def pyStrip (s : String) : String :=
  String.mk ((dropLeadingWs ((dropLeadingWs s.toList).reverse)).reverse)

/-- Continue a digit run after at least one digit has been read.  Python's
`int()` also allows a single underscore BETWEEN digits (`"1_2"`), but not a
leading, trailing or doubled one. -/
def digitsUnderscore : List Char → Nat → Option Nat
  | [], acc => some acc
  | ['_'], _ => none
  | '_' :: c :: t, acc =>
    if c.isDigit then digitsUnderscore t (acc * 10 + (c.toNat - 48)) else none
  | c :: t, acc =>
    if c.isDigit then digitsUnderscore t (acc * 10 + (c.toNat - 48)) else none

/-- Parse a digit run whose first character is a digit.  Restricted to
ASCII digits: Python's `int()` also accepts Unicode decimal digits, which
the ASCII query strings these endpoints read never contain. -/
def digitsToNat : List Char → Option Nat
  | [] => none
  | c :: t => if c.isDigit then digitsUnderscore t (c.toNat - 48) else none

/-- Python's `int(str)`: optional surrounding whitespace, optional sign,
then at least one digit; `none` is the raised `ValueError`. -/
def pyInt? (s : String) : Option Int :=
  match (pyStrip s).toList with
  | '-' :: rest => (digitsToNat rest).map (fun n => -(n : Int))
  | '+' :: rest => (digitsToNat rest).map (fun n => (n : Int))
  | cs => (digitsToNat cs).map (fun n => (n : Int))

/-- Does the character list start with the given pattern? -/
def startsWithList : List Char → List Char → Bool
  | _, [] => true
  | [], _ :: _ => false
  | a :: s, b :: t => a == b && startsWithList s t

/-- Does the character list contain the given pattern as a contiguous run? -/
def containsList : List Char → List Char → Bool
  | [], pat => pat.isEmpty
  | a :: s, pat => startsWithList (a :: s) pat || containsList s pat

/-- Case-insensitive substring test, the semantics of Django's
`icontains` lookup. -/
def icontains (hay pat : String) : Bool :=
  containsList hay.toLower.toList pat.toLower.toList

/-- The set of category ids a `?category=` filter expands to
(src/products/views.py lines 66-77): the category itself — looked up with
`Category.objects.get`, which does NOT check `is_active` — plus its direct
active children; when the id matches no row the raw id is used alone. -/
def categoryExpansion (cats : List Category) (cid : Nat) : List Nat :=
  match getCategory cats cid with
  | some category =>
    category.id ::
      (cats.filter (fun d => d.parent == some category.id && d.is_active)).map
        (·.id)
  | none => [cid]

/-- Embedding of `ProductViewSet.get_queryset` (src/products/views.py lines 50-100):
filters applied in source order — company, category (expanded one level),
price bounds, stock flag, featured flag, brand substring.  The company
branch filters on `company_id`, a field the `Product` model does not
declare, so reaching it raises an ORM `FieldError` eagerly.  This is the
queryset-construction stage only: the full list request additionally fails
unconditionally (the invalid `filterset_fields` and `select_related`,
modelled by `productListRequest`); the endpoint theorems over this stage
state what the filter logic itself admits. -/
def productGetQueryset (ps : List Product) (cats : List Category)
    (pr : ProductListParams) : Except ApiError (List Product) :=
  match pr.company with
  | some _ => .error .fieldError
  | none =>
    let q0 := productBase ps
    let q1 := match pr.category with
      | none => q0
      | some cid =>
        q0.filter (fun p => decide (p.category ∈ categoryExpansion cats cid))
    let q2 := match pr.min_price with
      | none => q1
      | some m => q1.filter (fun p => decide (m ≤ p.price))
    let q3 := match pr.max_price with
      | none => q2
      | some m => q2.filter (fun p => decide (p.price ≤ m))
    let q4 := match pr.in_stock with
      | none => q3
      | some s =>
        if s.toLower == "true" then q3.filter (fun p => p.in_stock)
        else if s.toLower == "false" then q3.filter (fun p => !p.in_stock)
        else q3
    let q5 := match pr.featured with
      | none => q4
      | some s =>
        if s.toLower == "true" then q4.filter (fun p => p.is_featured) else q4
    let q6 := match pr.brand with
      | none => q5
      | some b => q5.filter (fun p => icontains p.brand b)
    .ok q6

/-- Insert into a list sorted by `le` (stable). -/
def insertSortedBy {α : Type} (le : α → α → Bool) (a : α) : List α → List α
  | [] => [a]
  | b :: t => if le a b then a :: b :: t else b :: insertSortedBy le a t

/-- Stable insertion sort by `le`; models Django's `order_by`, which only
permutes a queryset. -/
def insertionSortBy {α : Type} (le : α → α → Bool) : List α → List α
  | [] => []
  | a :: t => insertSortedBy le a (insertionSortBy le t)

/-- Ordering `order_by('-created_at')`. -/
def sortByCreatedDesc (l : List Product) : List Product :=
  insertionSortBy (fun a b => decide (b.created_at ≤ a.created_at)) l

/-- Slice `qs[:n]` of a Django queryset when the bound is non-negative; on
a negative bound the queryset raises `ValueError` (negative indexing is not
supported on querysets). -/
def qsSlice {α : Type} (n : Int) (l : List α) : Except ApiError (List α) :=
  if 0 ≤ n then .ok (l.take n.toNat) else .error .valueError

/-- Queryset slice wrapped in `try/except ValueError: pass`
(src/categories/views.py lines 222-226): when the slice raises, the
exception is swallowed and the queryset is left unsliced. -/
def trySliceOrKeep {α : Type} (n : Int) (l : List α) : List α :=
  match qsSlice n l with
  | .ok r => r
  | .error _ => l

/-- Endpoint `/products/featured` (src/products/views.py lines 193-201):
`get_queryset().filter(is_featured=True)[:12]`. -/
def featuredEndpoint (ps : List Product) (cats : List Category)
    (pr : ProductListParams) : Except ApiError (List Product) :=
  (productGetQueryset ps cats pr).map
    (fun q => (q.filter (fun p => p.is_featured)).take 12)

/-- Endpoint `/products/latest` (src/products/views.py lines 203-213):
`limit = int(request.query_params.get('limit', 20))` — a bare `int()` with
no exception handler, so a malformed limit raises `ValueError` — then
`get_queryset().order_by('-created_at')[:limit]`. -/
def latestEndpoint (ps : List Product) (cats : List Category)
    (pr : ProductListParams) (limitRaw : Option String) :
    Except ApiError (List Product) :=
  match pyInt? (limitRaw.getD "20") with
  | none => .error .valueError
  | some n =>
    match productGetQueryset ps cats pr with
    | .error e => .error e
    | .ok q => qsSlice n (sortByCreatedDesc q)

/-- Endpoint `/products/popular` (src/products/views.py lines 215-224): the pool
`get_queryset().filter(is_featured=True)` from which `order_by('?')[:15]`
draws a random sample; the sample is always a selection from this pool. -/
def popularCandidates (ps : List Product) (cats : List Category)
    (pr : ProductListParams) : Except ApiError (List Product) :=
  (productGetQueryset ps cats pr).map (fun q => q.filter (fun p => p.is_featured))

/-- Endpoint `/products/in_stock` (src/products/views.py lines 226-236):
`get_queryset().filter(in_stock=True)`. -/
def inStockEndpoint (ps : List Product) (cats : List Category)
    (pr : ProductListParams) : Except ApiError (List Product) :=
  (productGetQueryset ps cats pr).map (fun q => q.filter (fun p => p.in_stock))

/-- Endpoint `/products/{id}/related` (src/products/views.py lines 238-261):
same-category products excluding the product itself, narrowed to the
same-brand subset when that subset is non-empty, capped at 8. -/
def relatedEndpoint (ps : List Product) (cats : List Category)
    (pr : ProductListParams) (prod : Product) : Except ApiError (List Product) :=
  (productGetQueryset ps cats pr).map (fun q =>
    let sameCat := q.filter (fun p => p.category == prod.category && p.id != prod.id)
    let sameBrand := sameCat.filter (fun p => p.brand == prod.brand)
    (if sameBrand.isEmpty then sameCat else sameBrand).take 8)

/-- Endpoint `/products/search` (src/products/views.py lines 149-190): the
query is stripped (`q.strip()`); a blank result is rejected with a 400;
otherwise the multi-field substring match on the stripped query is applied
on `get_queryset()`, then the optional category (exact) and company filters
are re-applied — the company filter again references the missing
`company_id` field. -/
def searchEndpoint (ps : List Product) (cats : List Category)
    (pr : ProductListParams) (q : String) : Except ApiError (List Product) :=
  if pyStrip q = "" then .error .emptySearchQuery
  else
    match productGetQueryset ps cats pr with
    | .error e => .error e
    | .ok qs =>
      let qs1 := qs.filter (fun p =>
        icontains p.title (pyStrip q) || icontains p.description (pyStrip q) ||
        icontains p.brand (pyStrip q) || icontains p.seller_code (pyStrip q))
      let qs2 := match pr.category with
        | none => qs1
        | some cid => qs1.filter (fun p => p.category == cid)
      match pr.company with
      | some _ => .error .fieldError
      | none => .ok qs2

/-- Validation of the product seller code
(src/products/serializers.py lines 116-123): an update presenting the
instance's own current code passes immediately; otherwise any existing
product with the code is a duplicate. -/
def validateSellerCode (ps : List Product) (inst : Option Product)
    (value : String) : Except ValidationError String :=
  if (match inst with
      | some i => i.seller_code == value
      | none => false) then .ok value
  else if ps.any (fun p => p.seller_code == value) then
    .error .duplicateSellerCode
  else .ok value

/-! ## Category-side product listings and counts -/

/-- Property `Category.product_count` (src/categories/models.py lines 28-30):
count of the category's active products. -/
def productCountProperty (ps : List Product) (c : Category) : Nat :=
  (ps.filter (fun p => p.category == c.id && p.is_active)).length

/-- The `total_products` annotation
(src/categories/views.py lines 67-70 and the sibling annotations):
`Count('products', filter=Q(products__is_active=True))`. -/
def totalProductsAnnot (ps : List Product) (c : Category) : Nat :=
  (ps.filter (fun p => p.category == c.id && p.is_active)).length

/-- Method `CategorySerializer.get_product_count`
(src/categories/serializers.py lines 44-57), un-annotated branch: active
products directly attached plus those of each active child. -/
def detailProductCount (ps : List Product) (cats : List Category)
    (c : Category) : Nat :=
  productCountProperty ps c +
    ((cats.filter (fun d => d.parent == some c.id && d.is_active)).map
      (fun d => productCountProperty ps d)).sum

/-- Endpoint `/categories/{id}/products` (src/categories/views.py lines 197-254):
active products of the category, optionally unioned with those of its
direct active children, then sliced by `limit`, whose parse failure is
swallowed by `try/except ValueError: pass` (lines 222-226).  The whitelisted
`ordering` parameter only permutes the result and is omitted. -/
def categoryProductsEndpoint (ps : List Product) (cats : List Category)
    (cid : Nat) (includeSub : Bool) (limitRaw : Option String) :
    List Product :=
  let base :=
    if includeSub then
      let categoryIds := cid ::
        (cats.filter (fun d => d.parent == some cid && d.is_active)).map (·.id)
      ps.filter (fun p => decide (p.category ∈ categoryIds) && p.is_active)
    else
      ps.filter (fun p => p.category == cid && p.is_active)
  match limitRaw with
  | none => base
  | some s =>
    if s = "" then base
    else
      match pyInt? s with
      | none => base
      | some n => trySliceOrKeep n base

/-- Endpoint `/categories/popular` (src/categories/views.py lines 150-163):
`limit = int(request.query_params.get('limit', 10))` — again a bare
`int()` — then the active categories with a positive product count,
ordered by descending count and sliced. -/
def categoriesPopularEndpoint (cats : List Category) (ps : List Product)
    (limitRaw : Option String) : Except ApiError (List Category) :=
  match pyInt? (limitRaw.getD "10") with
  | none => .error .valueError
  | some n =>
    let qs := (cats.filter (fun c => c.is_active)).filter
      (fun c => 0 < totalProductsAnnot ps c)
    qsSlice n (insertionSortBy
      (fun a b => decide (totalProductsAnnot ps b ≤ totalProductsAnnot ps a)) qs)

/-- Method `CategorySerializer.get_breadcrumbs`
(src/categories/serializers.py lines 74-86): the `while current:` walk up
the parent references, inserting each node at the front, so the root comes
first and the node itself last.  The Python loop is unbounded; the fuel
makes it total, and equals the loop on any terminating chain.  Entries are
modelled by their ids (the serializer emits id/name pairs). -/
def breadcrumbTrail (db : List Category) : Nat → Nat → List Nat
  | 0, i => [i]
  | fuel + 1, i =>
    match parentOf db i with
    | none => [i]
    | some p => breadcrumbTrail db fuel p ++ [i]

/-! ## Order ledger -/

/-- Look a product up by primary key. -/
def findProduct (ps : List Product) (pid : Nat) : Option Product :=
  ps.find? (fun p => p.id == pid)

/-- Change the current price of the product with id `pid`. -/
def updateProductPrice (ps : List Product) (pid : Nat) (newPrice : Int) :
    List Product :=
  ps.map (fun p => if p.id = pid then { p with price := newPrice } else p)

/-- Map a fallible function over a list, failing when any element fails. -/
def optionMapList {α β : Type} (g : α → Option β) : List α → Option (List β)
  | [] => some []
  | a :: t => (g a).bind (fun b => (optionMapList g t).map (fun bs => b :: bs))

/-- Modelled from the spec: order creation is absent from src/ (the orders
app ships only models and admin), and §4.5 describes it — it generates the
order number as "a short random alphanumeric token prefixed with a fixed
marker" (the model's own `save` uses the `ORD-` marker), "defaults status to
pending, snapshots each selected product's current price into its OrderItem,
and computes subtotal = sum of item totals, total = subtotal + delivery
fee."  `sel` is the selected (product id, quantity) list; `none` when a
selected product does not exist. -/
def createOrder (ps : List Product) (sel : List (Nat × Nat)) (fee : Int)
    (userId : Nat) (token : String) (paymentMethod address phone : String) :
    Option (Order × List OrderItem) :=
  (optionMapList (fun s => (findProduct ps s.1).map
      (fun prod => OrderItem.mk s.1 s.2 prod.price)) sel).map
    (fun items =>
      let sub := (items.map OrderItem.total_price).sum
      (⟨userId, "ORD-" ++ token, "pending", paymentMethod,
        sub, fee, sub + fee, address, phone⟩, items))

/-! ## Company endpoints and the missing product-company field -/

/-- Field names declared on the `Product` model
(src/products/models.py lines 7-31), in declaration order. -/
def productModelFields : List String :=
  ["title", "seller_code", "description", "price", "category", "seller",
   "in_stock", "brand", "weight", "dimensions", "color", "material",
   "is_active", "is_featured", "created_at", "updated_at"]

/-- The reverse accessors a `Company` instance exposes: every model with a
`ForeignKey` to `Company`, with its `related_name`.  Scanning src/, only
`Category.company` (src/categories/models.py lines 8-15,
`related_name='categories'`) targets `Company`; in particular the `Product`
model declares no company foreign key. -/
def companyReverseRelations : List (String × String) :=
  [("Category", "categories")]

/-- Resolution of the attribute access `company.<name>` against the reverse
relations; `none` is Python's `AttributeError`. -/
def resolveCompanyRelated (name : String) : Option String :=
  (companyReverseRelations.find? (fun e => e.2 == name)).map (·.1)

/-- Endpoint `/companies/{id}/products` (src/companies/views.py lines 65-97): the
handler's first data access is `company.products`, which requires a reverse
relation named `products` on `Company`; with none declared the access
raises `AttributeError` before any filtering runs. -/
def companyProductsEndpoint (ps : List Product) (companyId : Nat) :
    Except ApiError (List Product) :=
  match resolveCompanyRelated "products" with
  | none => .error .attributeError
  | some _ => .ok []

/-- Lookups declared by `ProductViewSet.filterset_fields`
(src/products/views.py lines 35-43), each paired with the model field it is
built on.  django-filter checks these names against the model when it
generates the FilterSet for a list request. -/
def productFiltersetFields : List (String × String) :=
  [("category", "category"), ("category__parent", "category"),
   ("company", "company"), ("price", "price"),
   ("is_featured", "is_featured"), ("in_stock", "in_stock"),
   ("brand", "brand")]

/-- Relations named by the base queryset's `select_related`
(src/products/views.py lines 21-23). -/
def productSelectRelated : List String := ["category", "seller", "company"]

/-- Validity of the auto-generated FilterSet: false when a declared lookup
is built on a field the model does not declare — django-filter then raises
`TypeError` inside `filter_queryset`, on every list request. -/
def productFiltersetValid : Bool :=
  productFiltersetFields.all (fun e => productModelFields.contains e.2)

/-- Full `GET /products/` list request pipeline: `get_queryset` runs first
(its `?company=` branch raises `FieldError` eagerly), then the filter
backend constructs the FilterSet (`TypeError` when `filterset_fields` is
invalid), then the queryset is evaluated, where an invalid `select_related`
raises `FieldError`.  With the `company` field missing from `Product`, the
pipeline errors on every input. -/
def productListRequest (ps : List Product) (cats : List Category)
    (pr : ProductListParams) : Except ApiError (List Product) :=
  match productGetQueryset ps cats pr with
  | .error e => .error e
  | .ok q =>
    if productFiltersetValid then
      if productSelectRelated.all (fun f => productModelFields.contains f) then
        .ok q
      else .error .fieldError
    else .error .typeError

/-! ### Concrete witness inputs -/

/-- Inactive product used by the C4 witness. -/
def prodInactive : Product := ⟨21, "x", "X1", "", 5, 1, 1, true, "", false, false, 0⟩

/-- Active product used by the C4 witness. -/
def prodActive : Product := ⟨22, "y", "Y1", "", 5, 1, 1, true, "", true, false, 0⟩

/-- Category holding the C4 witness products. -/
def cat4 : Category := ⟨1, "c", "", none, none, 0, true, 0⟩

/-- Category tree for the C6 witness: root 1 with active child 2, grandchild
3 under 2, and inactive child 4. -/
def cats6 : List Category :=
  [⟨1, "root", "", none, none, 0, true, 0⟩,
   ⟨2, "child", "", some 1, none, 0, true, 0⟩,
   ⟨3, "grand", "", some 2, none, 0, true, 0⟩,
   ⟨4, "inact", "", some 1, none, 0, false, 0⟩]

/-- Active product attached to grandchild category 3 (C6 exhibit). -/
def prodGrand : Product := ⟨31, "g", "G1", "", 5, 3, 1, true, "", true, false, 0⟩

/-- Active product attached directly to root category 1 (C6 exhibit). -/
def prodRoot : Product := ⟨30, "r", "R1", "", 5, 1, 1, true, "", true, false, 0⟩

/-- Inactive category used by the C10 witness. -/
def cat10 : Category := ⟨1, "c", "", none, none, 0, false, 0⟩

/-- Active product attached to the inactive category 1 (C10 witness). -/
def prod10 : Product := ⟨11, "p", "P1", "", 5, 1, 1, true, "", true, false, 0⟩

/-! ### Basic lemmas about the parent walk -/

theorem iterParent_add (db : List Category) (a b i : Nat) :
    iterParent db (a + b) i = (iterParent db a i).bind (iterParent db b) := by
  induction b with
  | zero =>
    cases h : iterParent db a i <;> simp [iterParent, h]
  | succ b ih =>
    show iterParent db (a + b + 1) i = _
    rw [iterParent, ih]
    cases h : iterParent db a i with
    | none => simp
    | some j => simp [iterParent]

theorem iterParent_succ_front (db : List Category) (n i : Nat) :
    iterParent db (n + 1) i = (parentOf db i).bind (iterParent db n) := by
  have h := iterParent_add db 1 n i
  have h1 : iterParent db 1 i = parentOf db i := by
    simp [iterParent]
  rw [Nat.add_comm] at h
  rw [h, h1]

theorem iterParent_none_mono (db : List Category) {f g i : Nat}
    (h : iterParent db f i = none) (hfg : f ≤ g) :
    iterParent db g i = none := by
  obtain ⟨k, rfl⟩ := Nat.le.dest hfg
  rw [iterParent_add, h]
  rfl

/-- Membership in the ancestor chain is witnessed by an iterate. -/
theorem mem_ancestorChain_iff (db : List Category) :
    ∀ (fuel i a : Nat), a ∈ ancestorChain db fuel i ↔
      ∃ k, 1 ≤ k ∧ k ≤ fuel ∧ iterParent db k i = some a := by
  intro fuel
  induction fuel with
  | zero =>
    intro i a
    simp [ancestorChain]
    intro k h1 h2
    omega
  | succ fuel ih =>
    intro i a
    constructor
    · intro hmem
      rw [ancestorChain] at hmem
      cases hp : parentOf db i with
      | none => rw [hp] at hmem; simp at hmem
      | some p =>
        rw [hp] at hmem
        rcases List.mem_cons.mp hmem with h | h
        · exact ⟨1, le_refl 1, by omega, by
            rw [iterParent_succ_front, hp]; simp [iterParent, h]⟩
        · obtain ⟨k, hk1, hk2, hk3⟩ := (ih p a).mp h
          exact ⟨k + 1, by omega, by omega, by
            rw [iterParent_succ_front, hp]; simpa using hk3⟩
    · rintro ⟨k, hk1, hk2, hk3⟩
      rw [ancestorChain]
      cases hp : parentOf db i with
      | none =>
        exfalso
        obtain ⟨k', rfl⟩ : ∃ k', k = k' + 1 := ⟨k - 1, by omega⟩
        rw [iterParent_succ_front, hp] at hk3
        simp at hk3
      | some p =>
        obtain ⟨k', rfl⟩ : ∃ k', k = k' + 1 := ⟨k - 1, by omega⟩
        rw [iterParent_succ_front, hp] at hk3
        simp at hk3
        rcases Nat.eq_zero_or_pos k' with h0 | hpos
        · subst h0
          simp [iterParent] at hk3
          exact List.mem_cons.mpr (Or.inl hk3.symm)
        · exact List.mem_cons.mpr (Or.inr ((ih p a).mpr ⟨k', hpos, by omega, hk3⟩))

/-- Any chain member is a descendant witness: soundness of the loop. -/
theorem isDescendant_of_mem_ancestorChain (db : List Category) :
    ∀ (fuel i a : Nat), a ∈ ancestorChain db fuel i → IsDescendant db a i := by
  intro fuel
  induction fuel with
  | zero => intro i a h; simp [ancestorChain] at h
  | succ fuel ih =>
    intro i a h
    rw [ancestorChain] at h
    cases hp : parentOf db i with
    | none => rw [hp] at h; simp at h
    | some p =>
      rw [hp] at h
      rcases List.mem_cons.mp h with h | h
      · exact IsDescendant.base (h ▸ hp)
      · exact IsDescendant.step hp (ih p a h)

/-- A descendant relationship yields a positive iterate. -/
theorem isDescendant_iterParent {db : List Category} {a i : Nat}
    (h : IsDescendant db a i) : ∃ k, 1 ≤ k ∧ iterParent db k i = some a := by
  induction h with
  | base hp => exact ⟨1, le_refl 1, by rw [iterParent_succ_front, hp]; rfl⟩
  | step hp _ ih =>
    obtain ⟨k, hk1, hk2⟩ := ih
    exact ⟨k + 1, by omega, by rw [iterParent_succ_front, hp]; simpa using hk2⟩

/-- Completeness of the fuel-bounded loop on a terminating chain: every
descendant witness appears in the chain of length `fuel` as soon as the walk
from `i` terminates within `fuel` hops. -/
theorem mem_ancestorChain_of_isDescendant {db : List Category} {fuel i a : Nat}
    (hterm : iterParent db fuel i = none) (h : IsDescendant db a i) :
    a ∈ ancestorChain db fuel i := by
  obtain ⟨k, hk1, hk2⟩ := isDescendant_iterParent h
  have hklt : k < fuel := by
    by_contra hge
    push_neg at hge
    have := iterParent_none_mono db hterm hge
    rw [this] at hk2
    exact Option.noConfusion hk2
  exact (mem_ancestorChain_iff db fuel i a).mpr ⟨k, hk1, by omega, hk2⟩

/-! ## Claim C1 -/

/-- C1.  For every category `A` and every update proposing a new parent `p`
for `A` on a table whose parent chains all terminate: if `p` is `A` itself
the update fails with the self-parent validation error; if `p` is a
descendant of `A` at any depth it fails with the circular-relationship
validation error; and it passes validation exactly when `p` is neither. -/
theorem C1_reparent_validation (db : List Category) (A p : Nat)
    (hterm : ∀ c ∈ db, reachesRoot db db.length c.id = true)
    (hp : ∃ c ∈ db, c.id = p) :
    (p = A → validateCategoryParent db A (some p) = .error .selfParent)
    ∧ (p ≠ A → IsDescendant db A p →
        validateCategoryParent db A (some p) = .error .circularParent)
    ∧ (p ≠ A → ¬ IsDescendant db A p →
        validateCategoryParent db A (some p) = .ok ()) := by
  obtain ⟨c, hc, rfl⟩ := hp
  have hcterm : iterParent db db.length c.id = none := by
    have := hterm c hc
    simpa [reachesRoot, Option.isNone_iff_eq_none] using this
  refine ⟨fun h => ?_, fun hne hdesc => ?_, fun hne hnd => ?_⟩
  · simp [validateCategoryParent, h]
  · have hmem : A ∈ ancestorChain db db.length c.id :=
      mem_ancestorChain_of_isDescendant hcterm hdesc
    simp [validateCategoryParent, hne, hmem]
  · have hnmem : A ∉ ancestorChain db db.length c.id := fun hmem =>
      hnd (isDescendant_of_mem_ancestorChain db db.length c.id A hmem)
    simp [validateCategoryParent, hne, hnmem]

/-- Witness for C1: on the chain `1 ← 2 ← 3`, re-parenting category 1 onto
its grandchild 3 is rejected with the circular-relationship error. -/
theorem C1_reparent_validation_witness :
    validateCategoryParent dbChain3 1 (some 3) =
      Except.error ValidationError.circularParent := by
  have h := C1_reparent_validation dbChain3 1 3 (by decide)
    ⟨⟨3, "leaf", "", some 2, none, 0, true, 2⟩, by decide, rfl⟩
  exact h.2.1 (by decide)
    (@IsDescendant.step dbChain3 3 2 1 (by decide)
      (@IsDescendant.base dbChain3 2 1 (by decide)))

/-! ### Lookup lemmas -/

theorem getCategory_id {db : List Category} {i : Nat} {c : Category}
    (h : getCategory db i = some c) : c.id = i := by
  have := List.find?_some h
  simpa using this

theorem getCategory_mem {db : List Category} {i : Nat} {c : Category}
    (h : getCategory db i = some c) : c ∈ db :=
  List.mem_of_find?_eq_some h

theorem getCategory_isSome_of_mem {db : List Category} {i : Nat}
    (h : i ∈ idsOf db) : ∃ c, getCategory db i = some c ∧ c.id = i := by
  obtain ⟨c, hc, hid⟩ := List.mem_map.mp h
  have : (db.find? (fun c => c.id == i)).isSome :=
    List.find?_isSome.mpr ⟨c, hc, by simp [hid]⟩
  obtain ⟨d, hd⟩ := Option.isSome_iff_exists.mp this
  exact ⟨d, hd, getCategory_id hd⟩

theorem parentOf_eq_some {db : List Category} {m j : Nat}
    (h : parentOf db m = some j) :
    ∃ c ∈ db, c.id = m ∧ c.parent = some j := by
  unfold parentOf at h
  cases hf : getCategory db m with
  | none => rw [hf] at h; exact Option.noConfusion h
  | some c =>
    rw [hf] at h
    exact ⟨c, getCategory_mem hf, getCategory_id hf, h⟩

theorem fk_iter_mem {db : List Category} (hfk : FkClosed db) {i : Nat}
    (hi : i ∈ idsOf db) :
    ∀ k j, iterParent db k i = some j → j ∈ idsOf db := by
  intro k
  induction k with
  | zero => intro j h; simp [iterParent] at h; exact h ▸ hi
  | succ k ih =>
    intro j h
    rw [iterParent] at h
    cases hk : iterParent db k i with
    | none => rw [hk] at h; exact Option.noConfusion h
    | some m =>
      rw [hk] at h
      simp at h
      obtain ⟨c, hc, _, hcp⟩ := parentOf_eq_some h
      exact hfk c hc j hcp

/-! ### Termination bound: any terminating walk on a duplicate-free,
foreign-key-closed table terminates within the number of rows -/

theorem iterParent_ne_none_of_cycle {db : List Category} {k i : Nat}
    (h : iterParent db k i = some i) (hk : 1 ≤ k) :
    ∀ f, iterParent db f i ≠ none := by
  have hmul : ∀ m, iterParent db (m * k) i = some i := by
    intro m
    induction m with
    | zero => simp [iterParent]
    | succ m ihm =>
      have : (m + 1) * k = m * k + k := by ring
      rw [this, iterParent_add, ihm]
      simpa using h
  intro f hf
  have hle : f ≤ f * k := Nat.le_mul_of_pos_right f hk
  have := iterParent_none_mono db hf hle
  rw [hmul f] at this
  exact Option.noConfusion this

theorem terminates_bound_aux (db : List Category) :
    ∀ (n : Nat) (allowed : List Nat) (i : Nat), allowed.length ≤ n →
      allowed.Nodup →
      (∀ k j, iterParent db k i = some j → j ∈ allowed) →
      TerminatesAny db i →
      iterParent db allowed.length i = none := by
  intro n
  induction n with
  | zero =>
    intro allowed i hlen _ hall _
    have hi : i ∈ allowed := hall 0 i rfl
    have : allowed = [] := List.eq_nil_of_length_eq_zero (by omega)
    rw [this] at hi
    exact absurd hi (List.not_mem_nil i)
  | succ n ih =>
    intro allowed i hlen hnd hall hterm
    have hi : i ∈ allowed := hall 0 i rfl
    have hpos : 1 ≤ allowed.length := by
      rcases allowed with _ | ⟨a, t⟩
      · exact absurd hi (List.not_mem_nil i)
      · simp
    cases hp : parentOf db i with
    | none =>
      have h1 : iterParent db 1 i = none := by
        rw [iterParent_succ_front, hp]; rfl
      exact iterParent_none_mono db h1 hpos
    | some p =>
      have hlen' : (allowed.erase i).length = allowed.length - 1 :=
        List.length_erase_of_mem hi
      have hnd' : (allowed.erase i).Nodup := hnd.erase i
      have hnotp : ∀ k j, iterParent db k p = some j → j ≠ i := by
        intro k j hk hji
        rw [hji] at hk
        have hki : iterParent db (k + 1) i = some i := by
          rw [iterParent_succ_front, hp]; simpa using hk
        obtain ⟨f, hf⟩ := hterm
        exact iterParent_ne_none_of_cycle hki (by omega) f hf
      have hallp : ∀ k j, iterParent db k p = some j → j ∈ allowed.erase i := by
        intro k j hk
        have hmem : j ∈ allowed := hall (k + 1) j (by
          rw [iterParent_succ_front, hp]; simpa using hk)
        exact (List.mem_erase_of_ne (hnotp k j hk)).mpr hmem
      have htermp : TerminatesAny db p := by
        obtain ⟨f, hf⟩ := hterm
        rcases f with _ | f
        · simp [iterParent] at hf
        · rw [iterParent_succ_front, hp] at hf
          exact ⟨f, by simpa using hf⟩
      have hrec := ih (allowed.erase i) p (by omega) hnd' hallp htermp
      have hstep : iterParent db ((allowed.erase i).length + 1) i = none := by
        rw [iterParent_succ_front, hp]; simpa using hrec
      have heq : (allowed.erase i).length + 1 = allowed.length := by omega
      rwa [heq] at hstep

theorem catInv_bound {db : List Category} (hinv : CatInv db) :
    ∀ i ∈ idsOf db, iterParent db db.length i = none := by
  obtain ⟨hnd, hfk, hterm⟩ := hinv
  intro i hi
  have hlen : (idsOf db).length = db.length := List.length_map db (·.id)
  have := terminates_bound_aux db (idsOf db).length (idsOf db) i (le_refl _)
    hnd (fun k j hk => fk_iter_mem hfk hi k j hk) (hterm i hi)
  rwa [hlen] at this

/-! ### Effect of a create on lookups and walks -/

theorem parentOf_cons_ne {cat : Category} {db : List Category} {i : Nat}
    (h : cat.id ≠ i) : parentOf (cat :: db) i = parentOf db i := by
  have hb : (cat.id == i) = false := by simp [h]
  simp [parentOf, getCategory, List.find?, hb]

theorem parentOf_cons_self (cat : Category) (db : List Category) :
    parentOf (cat :: db) cat.id = cat.parent := by
  simp [parentOf, getCategory, List.find?]

theorem iterParent_cons_eq {cat : Category} {db : List Category}
    (hfresh : cat.id ∉ idsOf db) (hfk : FkClosed db) :
    ∀ (k : Nat) {i : Nat}, i ∈ idsOf db →
      iterParent (cat :: db) k i = iterParent db k i := by
  intro k
  induction k with
  | zero => intro i _; rfl
  | succ k ih =>
    intro i hi
    rw [iterParent_succ_front, iterParent_succ_front]
    have hne : cat.id ≠ i := fun he => hfresh (he ▸ hi)
    rw [parentOf_cons_ne hne]
    cases hp : parentOf db i with
    | none => rfl
    | some q =>
      obtain ⟨c, hc, _, hcp⟩ := parentOf_eq_some hp
      have hq : q ∈ idsOf db := hfk c hc q hcp
      simpa using ih hq

/-! ### Effect of an update on lookups and walks -/

theorem reparentRow_id (A : Nat) (p : Option Nat) (c : Category) :
    (reparentRow A p c).id = c.id := by
  unfold reparentRow; split <;> rfl

theorem reparentRow_parent_eq (A : Nat) (p : Option Nat) (c : Category)
    (h : c.id = A) : (reparentRow A p c).parent = p := by
  simp [reparentRow, h]

theorem reparentRow_parent_ne (A : Nat) (p : Option Nat) (c : Category)
    (h : c.id ≠ A) : (reparentRow A p c).parent = c.parent := by
  simp [reparentRow, h]

theorem idsOf_updateParentField (db : List Category) (A : Nat)
    (p : Option Nat) : idsOf (updateParentField db A p) = idsOf db := by
  induction db with
  | nil => rfl
  | cons c rest ih =>
    simp only [updateParentField, List.map_cons, idsOf] at ih ⊢
    rw [reparentRow_id]
    exact congrArg (c.id :: ·) ih

theorem getCategory_update (db : List Category) (A : Nat) (p : Option Nat)
    (i : Nat) :
    getCategory (updateParentField db A p) i =
      (getCategory db i).map (reparentRow A p) := by
  induction db with
  | nil => rfl
  | cons c rest ih =>
    by_cases hc : c.id = i
    · simp [updateParentField, getCategory, List.find?, reparentRow_id, hc]
    · have hb : (c.id == i) = false := by simp [hc]
      simp only [updateParentField, List.map_cons, getCategory, List.find?,
        reparentRow_id, hb]
      exact ih

theorem parentOf_update_ne {db : List Category} {A : Nat} {p : Option Nat}
    {i : Nat} (h : i ≠ A) :
    parentOf (updateParentField db A p) i = parentOf db i := by
  unfold parentOf
  rw [getCategory_update]
  cases hg : getCategory db i with
  | none => rfl
  | some c =>
    have hcA : c.id ≠ A := by rw [getCategory_id hg]; exact h
    simp [reparentRow_parent_ne A p c hcA]

theorem parentOf_update_self {db : List Category} {A : Nat} {p : Option Nat}
    (h : A ∈ idsOf db) : parentOf (updateParentField db A p) A = p := by
  unfold parentOf
  rw [getCategory_update]
  obtain ⟨c, hc, hid⟩ := getCategory_isSome_of_mem h
  rw [hc]
  simp [reparentRow_parent_eq A p c hid]

theorem iterParent_update_eq {db : List Category} {A : Nat} {p : Option Nat}
    {i : Nat} (hav : ∀ k j, iterParent db k i = some j → j ≠ A) :
    ∀ k, iterParent (updateParentField db A p) k i = iterParent db k i := by
  intro k
  induction k with
  | zero => rfl
  | succ k ih =>
    rw [iterParent, iterParent, ih]
    cases hk : iterParent db k i with
    | none => rfl
    | some j => simpa using parentOf_update_ne (hav k j hk)

theorem updateParentField_id_of_not_mem {db : List Category} {A : Nat}
    {p : Option Nat} (h : A ∉ idsOf db) : updateParentField db A p = db := by
  induction db with
  | nil => rfl
  | cons c rest ih =>
    have hsplit : c.id ≠ A ∧ A ∉ idsOf rest := by
      constructor
      · intro he; exact h (by simp [idsOf, he])
      · intro hm; exact h (by simp [idsOf] at hm ⊢; exact Or.inr hm)
    have hrc : reparentRow A p c = c := by simp [reparentRow, hsplit.1]
    simp only [updateParentField, List.map_cons, hrc]
    exact congrArg (c :: ·) (ih hsplit.2)

theorem terminatesAny_update {db : List Category} {A : Nat} {p : Option Nat}
    (hA : TerminatesAny (updateParentField db A p) A) :
    ∀ f i, iterParent db f i = none →
      TerminatesAny (updateParentField db A p) i := by
  intro f
  induction f with
  | zero => intro i h; simp [iterParent] at h
  | succ f ih =>
    intro i h
    by_cases hiA : i = A
    · exact hiA ▸ hA
    · rw [iterParent_succ_front] at h
      cases hp : parentOf db i with
      | none =>
        exact ⟨1, by rw [iterParent_succ_front, parentOf_update_ne hiA, hp]; rfl⟩
      | some j =>
        rw [hp] at h
        simp at h
        obtain ⟨g, hg⟩ := ih j h
        exact ⟨g + 1, by
          rw [iterParent_succ_front, parentOf_update_ne hiA, hp]
          simpa using hg⟩

/-! ### Invariant preservation -/

theorem catStep_inv {db db' : List Category} (hstep : CatStep db db')
    (hinv : CatInv db) : CatInv db' := by
  obtain ⟨hnd, hfk, hterm⟩ := hinv
  cases hstep with
  | create cat hfresh hpar =>
    refine ⟨?_, ?_, ?_⟩
    · simpa [idsOf] using And.intro (by simpa [idsOf] using hfresh) (by simpa [idsOf] using hnd)
    · intro c hc q hq
      rcases List.mem_cons.mp hc with rfl | hc
      · exact List.mem_cons.mpr (Or.inr (hpar q hq))
      · exact List.mem_cons.mpr (Or.inr (hfk c hc q hq))
    · intro i hi
      rcases List.mem_cons.mp (by simpa [idsOf] using hi :
          i ∈ cat.id :: idsOf db) with rfl | hi
      · cases hcp : cat.parent with
        | none =>
          exact ⟨1, by rw [iterParent_succ_front, parentOf_cons_self, hcp]; rfl⟩
        | some q =>
          have hq : q ∈ idsOf db := hpar q hcp
          obtain ⟨f, hf⟩ := hterm q hq
          have hq' : iterParent (cat :: db) f q = none := by
            rw [iterParent_cons_eq hfresh hfk f hq]; exact hf
          exact ⟨f + 1, by
            rw [iterParent_succ_front, parentOf_cons_self, hcp]
            simpa using hq'⟩
      · obtain ⟨f, hf⟩ := hterm i hi
        exact ⟨f, by rw [iterParent_cons_eq hfresh hfk f hi]; exact hf⟩
  | update A p hval hpfk =>
    have hids : idsOf (updateParentField db A p) = idsOf db :=
      idsOf_updateParentField db A p
    refine ⟨hids ▸ hnd, ?_, ?_⟩
    · intro c' hc' q hq
      rw [hids]
      obtain ⟨c, hc, rfl⟩ := List.mem_map.mp hc'
      by_cases hcA : c.id = A
      · rw [reparentRow_parent_eq A p c hcA] at hq
        exact hpfk q hq
      · rw [reparentRow_parent_ne A p c hcA] at hq
        exact hfk c hc q hq
    · intro i hi
      rw [hids] at hi
      by_cases hAmem : A ∈ idsOf db
      · have hAterm : TerminatesAny (updateParentField db A p) A := by
          cases p with
          | none =>
            exact ⟨1, by rw [iterParent_succ_front, parentOf_update_self hAmem]; rfl⟩
          | some q =>
            have hqmem : q ∈ idsOf db := hpfk q rfl
            have hqA : q ≠ A ∧ A ∉ ancestorChain db db.length q := by
              by_cases h1 : q = A
              · exfalso
                have hv : validateCategoryParent db A (some q) =
                    Except.error ValidationError.selfParent := by
                  simp [validateCategoryParent, h1]
                rw [hv] at hval
                exact Except.noConfusion hval
              · by_cases h2 : A ∈ ancestorChain db db.length q
                · exfalso
                  have hv : validateCategoryParent db A (some q) =
                      Except.error ValidationError.circularParent := by
                    simp [validateCategoryParent, h1, h2]
                  rw [hv] at hval
                  exact Except.noConfusion hval
                · exact ⟨h1, h2⟩
            have hqterm_db : iterParent db db.length q = none :=
              catInv_bound ⟨hnd, hfk, hterm⟩ q hqmem
            have hav : ∀ k j, iterParent db k q = some j → j ≠ A := by
              intro k j hk hj
              subst hj
              rcases Nat.eq_zero_or_pos k with rfl | hkpos
              · simp [iterParent] at hk
                exact hqA.1 hk
              · have hklt : k < db.length := by
                  by_contra hge
                  push_neg at hge
                  have := iterParent_none_mono db hqterm_db hge
                  rw [this] at hk
                  exact Option.noConfusion hk
                exact hqA.2 ((mem_ancestorChain_iff db db.length q j).mpr
                  ⟨k, hkpos, by omega, hk⟩)
            have hagree : iterParent (updateParentField db A (some q)) db.length q
                = iterParent db db.length q := iterParent_update_eq hav db.length
            exact ⟨db.length + 1, by
              rw [iterParent_succ_front, parentOf_update_self hAmem]
              simpa using hagree.trans hqterm_db⟩
        obtain ⟨f, hf⟩ := hterm i hi
        exact terminatesAny_update hAterm f i hf
      · have heq : updateParentField db A p = db :=
          updateParentField_id_of_not_mem hAmem
        rw [heq]
        exact hterm i hi

theorem catReachable_inv {db : List Category} (h : CatReachable db) :
    CatInv db := by
  induction h with
  | init =>
    exact ⟨List.nodup_nil, fun c hc => absurd hc (List.not_mem_nil c),
      fun i hi => absurd hi (by simp [idsOf])⟩
  | step _ hs ih => exact catStep_inv hs ih

/-! ## Claim C2 -/

/-- C2.  In every table state reachable from the empty table through the
category create/update operations, every category's parent chain reaches a
parentless node within at most the number of stored categories hops: no
sequence of operations persists a cycle. -/
theorem C2_parent_chains_acyclic (db : List Category) (h : CatReachable db) :
    ∀ c ∈ db, reachesRoot db db.length c.id = true := by
  have hinv := catReachable_inv h
  intro c hc
  have hmem : c.id ∈ idsOf db := List.mem_map_of_mem (·.id) hc
  have := catInv_bound hinv c.id hmem
  simp [reachesRoot, this]

/-- Witness for C2: the state reached by creating categories 1 and 2 and
re-parenting 2 under 1 has terminating parent chains; in particular the walk
from category 2 reaches a root within two hops. -/
theorem C2_parent_chains_acyclic_witness :
    reachesRoot dbW dbW.length 2 = true := by
  have s1 : CatStep [] [catW1] :=
    CatStep.create catW1 (by decide) (fun q hq => Option.noConfusion hq)
  have s2 : CatStep [catW1] [catW2, catW1] :=
    CatStep.create catW2 (by decide) (fun q hq => Option.noConfusion hq)
  have s3 : CatStep [catW2, catW1] dbW :=
    CatStep.update 2 (some 1) (by rfl) (fun q hq => by cases hq; decide)
  have hreach : CatReachable dbW :=
    CatReachable.step
      (CatReachable.step (CatReachable.step CatReachable.init s1) s2) s3
  exact C2_parent_chains_acyclic dbW hreach ⟨2, "b", "", some 1, none, 0, true, 0⟩
    (by decide)

/-! ### Order-ledger lemmas -/

theorem optionMapList_mem {α β : Type} {g : α → Option β} :
    ∀ {l : List α} {res : List β}, optionMapList g l = some res →
      ∀ b ∈ res, ∃ a ∈ l, g a = some b := by
  intro l
  induction l with
  | nil =>
    intro res h b hb
    have h' : ([] : List β) = res := Option.some.inj h
    rw [← h'] at hb
    exact absurd hb (List.not_mem_nil b)
  | cons a t ih =>
    intro res h b hb
    rw [optionMapList] at h
    cases hga : g a with
    | none => rw [hga] at h; exact Option.noConfusion h
    | some b0 =>
      rw [hga] at h
      cases hmt : optionMapList g t with
      | none => rw [hmt] at h; exact Option.noConfusion h
      | some bs =>
        rw [hmt] at h
        have h' : b0 :: bs = res := Option.some.inj h
        rw [← h'] at hb
        rcases List.mem_cons.mp hb with rfl | hbs
        · exact ⟨a, List.mem_cons_self a t, hga⟩
        · obtain ⟨a', ha', hg'⟩ := ih hmt b hbs
          exact ⟨a', List.mem_cons.mpr (Or.inr ha'), hg'⟩

theorem findProduct_id {ps : List Product} {pid : Nat} {prod : Product}
    (h : findProduct ps pid = some prod) : prod.id = pid := by
  have := List.find?_some h
  simpa using this

theorem findProduct_updatePrice (ps : List Product) (pid : Nat)
    (np : Int) :
    findProduct (updateProductPrice ps pid np) pid =
      (findProduct ps pid).map (fun p => { p with price := np }) := by
  induction ps with
  | nil => rfl
  | cons p rest ih =>
    have hid : (if p.id = pid then { p with price := np } else p).id = p.id := by
      split <;> rfl
    by_cases hp : p.id = pid
    · simp [updateProductPrice, findProduct, List.find?, hid, hp]
    · have hb : (p.id == pid) = false := by simp [hp]
      simp only [updateProductPrice, List.map_cons, findProduct, List.find?,
        hid, hb]
      exact ih

/-! ## Claim C3 -/

/-- C3.  Every order assembled by order creation satisfies: total amount =
subtotal + delivery fee; the subtotal is the sum of the item totals; each
item's derived total is quantity times its own stored snapshot price; each
snapshot equals the referenced product's price at creation time; and after
any later change to a product's current price — which is visible through
`findProduct` — every existing item total is still quantity times the
original snapshot price. -/
theorem C3_order_totals (ps : List Product) (sel : List (Nat × Nat))
    (fee : Int) (userId : Nat) (token paymentMethod address phone : String)
    (o : Order) (items : List OrderItem)
    (h : createOrder ps sel fee userId token paymentMethod address phone =
      some (o, items)) :
    o.total_amount = o.subtotal + o.delivery_fee
    ∧ o.subtotal = (items.map OrderItem.total_price).sum
    ∧ (∀ it ∈ items, OrderItem.total_price it = (it.quantity : Int) * it.price)
    ∧ (∀ it ∈ items, ∃ prod, findProduct ps it.product = some prod ∧
        it.price = prod.price)
    ∧ (∀ pid np prod, findProduct ps pid = some prod →
        findProduct (updateProductPrice ps pid np) pid =
          some { prod with price := np }
        ∧ ∀ it ∈ items, it.product = pid →
            OrderItem.total_price it = (it.quantity : Int) * prod.price) := by
  unfold createOrder at h
  cases hm : optionMapList (fun s => (findProduct ps s.1).map
      (fun prod => OrderItem.mk s.1 s.2 prod.price)) sel with
  | none => rw [hm] at h; exact Option.noConfusion h
  | some its =>
    rw [hm] at h
    have h2 : (⟨userId, "ORD-" ++ token, "pending", paymentMethod,
        (its.map OrderItem.total_price).sum, fee,
        (its.map OrderItem.total_price).sum + fee, address, phone⟩,
        its) = ((o, items) : Order × List OrderItem) := Option.some.inj h
    have ho : o = ⟨userId, "ORD-" ++ token, "pending", paymentMethod,
        (its.map OrderItem.total_price).sum, fee,
        (its.map OrderItem.total_price).sum + fee, address, phone⟩ :=
      (congrArg Prod.fst h2).symm
    have hit : items = its := (congrArg Prod.snd h2).symm
    subst hit
    have hsnap : ∀ it ∈ items, ∃ prod,
        findProduct ps it.product = some prod ∧ it.price = prod.price := by
      intro it hitm
      obtain ⟨s, _, hs⟩ := optionMapList_mem hm it hitm
      cases hf : findProduct ps s.1 with
      | none => rw [hf] at hs; exact Option.noConfusion hs
      | some prod =>
        rw [hf] at hs
        have hmk : OrderItem.mk s.1 s.2 prod.price = it := Option.some.inj hs
        rw [← hmk]
        exact ⟨prod, hf, rfl⟩
    refine ⟨?_, ?_, ?_, hsnap, ?_⟩
    · rw [ho]
    · rw [ho]
    · intro it _; rfl
    · intro pid np prod hfind
      constructor
      · rw [findProduct_updatePrice, hfind]; rfl
      · intro it hit hpid
        obtain ⟨prod', hf', hp'⟩ := hsnap it hit
        rw [hpid] at hf'
        rw [hfind] at hf'
        have : prod' = prod := (Option.some.inj hf').symm
        rw [OrderItem.total_price, hp', this]

/-- First product of the order-witness catalog (price 15). -/
def prodO1 : Product := ⟨1, "p1", "A1", "", 15, 1, 1, true, "", true, false, 0⟩

/-- Second product of the order-witness catalog (price 30). -/
def prodO2 : Product := ⟨2, "p2", "A2", "", 30, 1, 1, true, "", true, false, 0⟩

/-- The order the witness creation produces. -/
def ordW : Order := ⟨7, "ORD-TOK", "pending", "cash", 60, 5, 65, "addr", "phone"⟩

/-- The items the witness creation produces. -/
def itemsW : List OrderItem := [⟨1, 2, 15⟩, ⟨2, 1, 30⟩]

/-- Witness for C3, the spec's own example: two items (2 × 15.00 and
1 × 30.00) with delivery fee 5.00 give subtotal 60.00 and total 65.00. -/
theorem C3_order_totals_witness :
    ordW.total_amount = ordW.subtotal + ordW.delivery_fee
    ∧ ordW.subtotal = (itemsW.map OrderItem.total_price).sum :=
  ⟨(C3_order_totals [prodO1, prodO2] [(1, 2), (2, 1)] 5 7 "TOK" "cash"
      "addr" "phone" ordW itemsW (by decide)).1,
   (C3_order_totals [prodO1, prodO2] [(1, 2), (2, 1)] 5 7 "TOK" "cash"
      "addr" "phone" ordW itemsW (by decide)).2.1⟩

/-! ## Claim C5 -/

/-- C5.  With a product bearing seller code `S` already stored, creating a
different product with code `S` (a create has no `self.instance`) fails
with the duplicate-code validation error, while updating that same product
and re-supplying its own current code passes. -/
theorem C5_seller_code_uniqueness (ps : List Product) (P : Product)
    (hP : P ∈ ps) :
    validateSellerCode ps none P.seller_code =
      Except.error ValidationError.duplicateSellerCode
    ∧ validateSellerCode ps (some P) P.seller_code =
      Except.ok P.seller_code := by
  have hany : ps.any (fun p => p.seller_code == P.seller_code) = true :=
    List.any_eq_true.mpr ⟨P, hP, by simp⟩
  constructor
  · simp [validateSellerCode, hany]
  · simp [validateSellerCode]

/-- Concrete stored product for the C5 witness. -/
def prodW : Product := ⟨1, "t", "SC1", "", 10, 1, 1, true, "", true, false, 0⟩

/-- Witness for C5 at a concrete store: code "SC1" is rejected for a create
and accepted for the owning instance's own update. -/
theorem C5_seller_code_uniqueness_witness :
    validateSellerCode [prodW] none "SC1" =
      Except.error ValidationError.duplicateSellerCode
    ∧ validateSellerCode [prodW] (some prodW) "SC1" =
      Except.ok "SC1" :=
  C5_seller_code_uniqueness [prodW] prodW (by decide)

/-! ## Claim C8 -/

/-- C8.  The company-products operation cannot return any product list: the
`Product` model declares no `company` field and no model exposes a
`products` reverse relation on `Company`, so `company.products` raises
`AttributeError` (shown here on company 1 with an empty product table — the
failure is input-independent), and the product list's company filter, which
references the missing `company_id` column, raises `FieldError`. -/
theorem C8_company_products_broken :
    companyProductsEndpoint [] 1 = Except.error ApiError.attributeError
    ∧ resolveCompanyRelated "products" = none
    ∧ "company" ∉ productModelFields
    ∧ productGetQueryset [] [] (onlyCompanyParams 1) =
        Except.error ApiError.fieldError :=
  ⟨rfl, rfl, by decide, rfl⟩

/-! ### Listing-membership lemmas -/

theorem not_mem_productBase {ps : List Product} {P : Product}
    (hP : P.is_active = false) : P ∉ productBase ps := by
  intro hmem
  have := (List.mem_filter.mp hmem).2
  rw [hP] at this
  exact Bool.noConfusion this

theorem productGetQueryset_subset {ps : List Product} {cats : List Category}
    {pr : ProductListParams} {q : List Product}
    (h : productGetQueryset ps cats pr = .ok q) :
    ∀ x ∈ q, x ∈ productBase ps := by
  intro x hx
  unfold productGetQueryset at h
  cases hco : pr.company with
  | some v => rw [hco] at h; exact Except.noConfusion h
  | none =>
    rw [hco] at h
    have hq := Except.ok.inj h
    rw [← hq] at hx
    repeat' (first | split at hx | simp only [List.mem_filter] at hx)
    all_goals tauto

theorem mem_of_qsSlice_ok {α : Type} {n : Int} {l r : List α} {x : α}
    (h : qsSlice n l = .ok r) (hx : x ∈ r) : x ∈ l := by
  unfold qsSlice at h
  split at h
  · rw [← Except.ok.inj h] at hx
    exact List.mem_of_mem_take hx
  · exact Except.noConfusion h

theorem mem_of_trySliceOrKeep {α : Type} {n : Int} {l : List α} {x : α}
    (hx : x ∈ trySliceOrKeep n l) : x ∈ l := by
  unfold trySliceOrKeep at hx
  cases h : qsSlice n l with
  | ok r => rw [h] at hx; exact mem_of_qsSlice_ok h hx
  | error e => rw [h] at hx; exact hx

theorem mem_insertSortedBy {α : Type} {le : α → α → Bool} {a x : α} :
    ∀ {l : List α}, x ∈ insertSortedBy le a l ↔ x = a ∨ x ∈ l := by
  intro l
  induction l with
  | nil => simp [insertSortedBy]
  | cons b t ih =>
    rw [insertSortedBy]
    split
    · simp
    · simp only [List.mem_cons, ih]
      tauto

theorem mem_insertionSortBy {α : Type} {le : α → α → Bool} {x : α} :
    ∀ {l : List α}, x ∈ insertionSortBy le l ↔ x ∈ l := by
  intro l
  induction l with
  | nil => simp [insertionSortBy]
  | cons a t ih =>
    rw [insertionSortBy, mem_insertSortedBy]
    simp [ih]

/-- Every mapped-endpoint membership reduces to queryset membership. -/
theorem exceptMap_ok {ε α β : Type} {f : α → β} {e : Except ε α} {b : β}
    (h : e.map f = .ok b) : ∃ a, e = .ok a ∧ b = f a := by
  cases e with
  | error err => exact Except.noConfusion h
  | ok a => exact ⟨a, rfl, (Except.ok.inj h).symm⟩

/-! ## Claim C4 -/

theorem count_drop_inactive {P : Product} (hP : P.is_active = false)
    (ps1 ps2 : List Product) (c : Category) :
    productCountProperty (ps1 ++ P :: ps2) c =
      productCountProperty (ps1 ++ ps2) c := by
  unfold productCountProperty
  rw [List.filter_append, List.filter_append, List.filter_cons]
  simp [hP]

/-- C4.  An inactive product `P` appears in no public product listing — the
base product list, search, featured, latest, the popular pool, in-stock,
related, and the category-products endpoint — and contributes to no derived
count: deleting `P`'s row changes neither the `product_count` property, nor
the `total_products` annotation, nor the detailed direct-plus-children
count. -/
theorem C4_inactive_products_excluded (ps : List Product)
    (cats : List Category) (pr : ProductListParams) (P : Product)
    (hP : P.is_active = false) (qstr : String) (prod0 : Product)
    (cid : Nat) (includeSub : Bool) (limitRaw : Option String)
    (c : Category) (ps1 ps2 : List Product) :
    (∀ q, productGetQueryset ps cats pr = .ok q → P ∉ q)
    ∧ (∀ q, searchEndpoint ps cats pr qstr = .ok q → P ∉ q)
    ∧ (∀ q, featuredEndpoint ps cats pr = .ok q → P ∉ q)
    ∧ (∀ q, latestEndpoint ps cats pr limitRaw = .ok q → P ∉ q)
    ∧ (∀ q, popularCandidates ps cats pr = .ok q → P ∉ q)
    ∧ (∀ q, inStockEndpoint ps cats pr = .ok q → P ∉ q)
    ∧ (∀ q, relatedEndpoint ps cats pr prod0 = .ok q → P ∉ q)
    ∧ P ∉ categoryProductsEndpoint ps cats cid includeSub limitRaw
    ∧ productCountProperty (ps1 ++ P :: ps2) c =
        productCountProperty (ps1 ++ ps2) c
    ∧ totalProductsAnnot (ps1 ++ P :: ps2) c =
        totalProductsAnnot (ps1 ++ ps2) c
    ∧ detailProductCount (ps1 ++ P :: ps2) cats c =
        detailProductCount (ps1 ++ ps2) cats c := by
  have hbase : P ∉ productBase ps := not_mem_productBase hP
  have hqs : ∀ q, productGetQueryset ps cats pr = .ok q → P ∉ q :=
    fun q hq hmem => hbase (productGetQueryset_subset hq P hmem)
  refine ⟨hqs, ?_, ?_, ?_, ?_, ?_, ?_, ?_, count_drop_inactive hP ps1 ps2 c,
    count_drop_inactive hP ps1 ps2 c, ?_⟩
  · -- search
    intro q h hmem
    unfold searchEndpoint at h
    split at h
    · exact Except.noConfusion h
    · cases hgq : productGetQueryset ps cats pr with
      | error e => rw [hgq] at h; exact Except.noConfusion h
      | ok qs =>
        rw [hgq] at h
        cases hcomp : pr.company with
        | some v => rw [hcomp] at h; exact Except.noConfusion h
        | none =>
          rw [hcomp] at h
          have hq := Except.ok.inj h
          rw [← hq] at hmem
          have hmem1 : P ∈ qs := by
            cases hcat : pr.category with
            | none =>
              rw [hcat] at hmem
              exact (List.mem_filter.mp hmem).1
            | some cid' =>
              rw [hcat] at hmem
              exact (List.mem_filter.mp (List.mem_filter.mp hmem).1).1
          exact hqs qs hgq hmem1
  · -- featured
    intro q h hmem
    obtain ⟨qs, hgq, rfl⟩ := exceptMap_ok h
    exact hqs qs hgq
      ((List.mem_filter.mp (List.mem_of_mem_take hmem)).1)
  · -- latest
    intro q h hmem
    unfold latestEndpoint at h
    split at h
    · exact Except.noConfusion h
    · cases hgq : productGetQueryset ps cats pr with
      | error e => rw [hgq] at h; exact Except.noConfusion h
      | ok qs =>
        rw [hgq] at h
        exact hqs qs hgq
          (mem_insertionSortBy.mp (mem_of_qsSlice_ok h hmem))
  · -- popular pool
    intro q h hmem
    obtain ⟨qs, hgq, rfl⟩ := exceptMap_ok h
    exact hqs qs hgq (List.mem_filter.mp hmem).1
  · -- in stock
    intro q h hmem
    obtain ⟨qs, hgq, rfl⟩ := exceptMap_ok h
    exact hqs qs hgq (List.mem_filter.mp hmem).1
  · -- related
    intro q h hmem
    obtain ⟨qs, hgq, rfl⟩ := exceptMap_ok h
    have hmem1 := List.mem_of_mem_take hmem
    have hmem2 : P ∈ qs.filter
        (fun p => p.category == prod0.category && p.id != prod0.id) := by
      split at hmem1
      · exact hmem1
      · exact (List.mem_filter.mp hmem1).1
    exact hqs qs hgq (List.mem_filter.mp hmem2).1
  · -- category products
    intro hmem
    have h1 : ∀ (pred : Product → Bool),
        P ∈ ps.filter (fun p => pred p && p.is_active) → False := by
      intro pred hm
      have := (List.mem_filter.mp hm).2
      rw [Bool.and_eq_true, hP] at this
      exact Bool.noConfusion this.2
    unfold categoryProductsEndpoint at hmem
    repeat' split at hmem
    all_goals
      first
      | exact h1 _ hmem
      | exact h1 _ (mem_of_trySliceOrKeep hmem)
  · -- detail count
    unfold detailProductCount
    rw [count_drop_inactive hP ps1 ps2 c]
    have hfun : (fun d => productCountProperty (ps1 ++ P :: ps2) d) =
        (fun d => productCountProperty (ps1 ++ ps2) d) :=
      funext (fun d => count_drop_inactive hP ps1 ps2 d)
    rw [hfun]

/-- Witness for C4: with an inactive and an active product stored, the
inactive one is missing from the plain product list and does not count
toward the category's product count. -/
theorem C4_inactive_products_excluded_witness :
    prodInactive ∉ productBase [prodInactive, prodActive]
    ∧ productCountProperty [prodInactive, prodActive] cat4 =
        productCountProperty [prodActive] cat4 :=
  ⟨(C4_inactive_products_excluded [prodInactive, prodActive] [] noParams
      prodInactive (by decide) "" prodActive 1 false none cat4 []
      [prodActive]).1 (productBase [prodInactive, prodActive]) rfl,
   (C4_inactive_products_excluded [prodInactive, prodActive] [] noParams
      prodInactive (by decide) "" prodActive 1 false none cat4 []
      [prodActive]).2.2.2.2.2.2.2.2.1⟩

/-! ## Claims C6 and C10 -/

theorem productGetQueryset_onlyCategory (ps : List Product)
    (cats : List Category) (cid : Nat) :
    productGetQueryset ps cats (onlyCategoryParams cid) =
      .ok ((productBase ps).filter
        (fun p => decide (p.category ∈ categoryExpansion cats cid))) := rfl

theorem mem_categoryExpansion {cats : List Category} {cid : Nat}
    (hex : ∃ C ∈ cats, C.id = cid) (x : Nat) :
    x ∈ categoryExpansion cats cid ↔
      x = cid ∨ ∃ d ∈ cats, d.id = x ∧ d.parent = some cid ∧
        d.is_active = true := by
  obtain ⟨C0, hC0, hid0⟩ := hex
  obtain ⟨C, hC, hCid⟩ := getCategory_isSome_of_mem
    (show cid ∈ idsOf cats from List.mem_map.mpr ⟨C0, hC0, hid0⟩)
  unfold categoryExpansion
  rw [hC]
  constructor
  · intro hx
    rcases List.mem_cons.mp hx with rfl | hx
    · exact Or.inl hCid
    · right
      obtain ⟨d, hd, rfl⟩ := List.mem_map.mp hx
      obtain ⟨hdmem, hdcond⟩ := List.mem_filter.mp hd
      rw [Bool.and_eq_true] at hdcond
      refine ⟨d, hdmem, rfl, ?_, hdcond.2⟩
      have := hdcond.1
      rw [beq_iff_eq] at this
      rw [this, hCid]
  · intro hx
    rcases hx with rfl | ⟨d, hd, hdx, hdp, hda⟩
    · exact List.mem_cons.mpr (Or.inl hCid.symm)
    · refine List.mem_cons.mpr (Or.inr (List.mem_map.mpr
        ⟨d, List.mem_filter.mpr ⟨hd, ?_⟩, hdx⟩))
      rw [Bool.and_eq_true, beq_iff_eq]
      exact ⟨hCid.symm ▸ hdp, hda⟩

/-- Membership characterisation of the queryset-construction stage of the
category-filtered product list: exactly the active products of the category
or of its direct active children.  This is the filter logic the C6 and C10
claims describe; the full request never delivers it (see
`productListRequest`). -/
theorem mem_categoryFilteredList {ps : List Product} {cats : List Category}
    {cid : Nat} (hex : ∃ C ∈ cats, C.id = cid) (P : Product) :
    ∀ q, productGetQueryset ps cats (onlyCategoryParams cid) = .ok q →
      (P ∈ q ↔ P ∈ ps ∧ P.is_active = true ∧
        (P.category = cid ∨ ∃ d ∈ cats, d.id = P.category ∧
          d.parent = some cid ∧ d.is_active = true)) := by
  intro q hq
  rw [productGetQueryset_onlyCategory] at hq
  have hqe := Except.ok.inj hq
  rw [← hqe, List.mem_filter]
  unfold productBase
  rw [List.mem_filter]
  constructor
  · rintro ⟨⟨hmem, hact⟩, hcat⟩
    exact ⟨hmem, hact,
      (mem_categoryExpansion hex P.category).mp (of_decide_eq_true hcat)⟩
  · rintro ⟨hmem, hact, hcond⟩
    exact ⟨⟨hmem, hact⟩,
      decide_eq_true ((mem_categoryExpansion hex P.category).mpr hcond)⟩

/-- C6, evaluated at its failing input.  The claim describes the intended
one-level category expansion, but the real `GET /products/?category=...`
request can never return that list: the auto-generated FilterSet is invalid
(`filterset_fields` names `company`, absent from `Product`, raising
`TypeError` in `filter_queryset`) and the base queryset's
`select_related('company')` also names a missing relation — even though the
`get_queryset` expansion stage alone would have contained the category's
own active product. -/
theorem C6_category_filter_request_errors :
    productListRequest [prodRoot] cats6 (onlyCategoryParams 1) =
      Except.error ApiError.typeError
    ∧ productFiltersetValid = false
    ∧ productSelectRelated.all (fun f => productModelFields.contains f) = false
    ∧ prodRoot ∈ (productBase [prodRoot]).filter
        (fun p => decide (p.category ∈ categoryExpansion cats6 1))
    ∧ prodGrand ∉ (productBase [prodGrand]).filter
        (fun p => decide (p.category ∈ categoryExpansion cats6 1)) :=
  ⟨rfl, by decide, by decide, by decide, by decide⟩

/-- C10, evaluated at its failing input.  The expansion stage of
`get_queryset` indeed looks category 1 up without an `is_active` check, so
its own active product survives that stage even though the category is
inactive — but the full list request errors (invalid FilterSet /
`select_related`), so the product is never actually returned. -/
theorem C10_inactive_category_request_errors :
    productListRequest [prod10] [cat10] (onlyCategoryParams 1) =
      Except.error ApiError.typeError
    ∧ cat10.is_active = false
    ∧ prod10 ∈ (productBase [prod10]).filter
        (fun p => decide (p.category ∈ categoryExpansion [cat10] 1)) :=
  ⟨rfl, rfl, by decide⟩

/-! ## Claim C7 -/

theorem breadcrumbTrail_ne_nil (db : List Category) (fuel i : Nat) :
    breadcrumbTrail db fuel i ≠ [] := by
  cases fuel with
  | zero => simp [breadcrumbTrail]
  | succ fuel =>
    rw [breadcrumbTrail]
    cases parentOf db i <;> simp

theorem breadcrumbTrail_getLast (db : List Category) :
    ∀ (fuel i : Nat), (breadcrumbTrail db fuel i).getLast? = some i := by
  intro fuel
  induction fuel with
  | zero => intro i; rfl
  | succ fuel _ =>
    intro i
    rw [breadcrumbTrail]
    cases parentOf db i with
    | none => rfl
    | some p => exact List.getLast?_concat _

theorem breadcrumbTrail_head_root {db : List Category} :
    ∀ {fuel i : Nat}, iterParent db fuel i = none →
      ∃ r, (breadcrumbTrail db fuel i).head? = some r ∧
        parentOf db r = none := by
  intro fuel
  induction fuel with
  | zero => intro i h; simp [iterParent] at h
  | succ fuel ih =>
    intro i h
    rw [iterParent_succ_front] at h
    rw [breadcrumbTrail]
    cases hp : parentOf db i with
    | none => exact ⟨i, rfl, hp⟩
    | some p =>
      rw [hp] at h
      simp at h
      obtain ⟨r, hr1, hr2⟩ := ih h
      refine ⟨r, ?_, hr2⟩
      cases hbt : breadcrumbTrail db fuel p with
      | nil => exact absurd hbt (breadcrumbTrail_ne_nil db fuel p)
      | cons a t =>
        rw [hbt] at hr1
        show (breadcrumbTrail db fuel p ++ [i]).head? = some r
        rw [hbt]
        simpa using hr1

theorem breadcrumbTrail_chain {db : List Category} :
    ∀ {fuel i : Nat}, iterParent db fuel i = none →
      List.Chain' (fun a b => parentOf db b = some a)
        (breadcrumbTrail db fuel i) := by
  intro fuel
  induction fuel with
  | zero => intro i h; simp [iterParent] at h
  | succ fuel ih =>
    intro i h
    rw [iterParent_succ_front] at h
    rw [breadcrumbTrail]
    cases hp : parentOf db i with
    | none => simp
    | some p =>
      rw [hp] at h
      simp at h
      rw [List.chain'_append]
      refine ⟨ih h, by simp, ?_⟩
      intro x hx y hy
      rw [breadcrumbTrail_getLast db fuel p] at hx
      simp at hx hy
      rw [← hx, ← hy]
      exact hp

/-- C7.  For a category whose parent chain terminates, the breadcrumb trail
is the root-to-node path: its last entry is the category itself, its first
entry is a parentless root, and each later entry's stored parent is its
predecessor. -/
theorem C7_breadcrumbs_root_to_node (db : List Category) (cid : Nat)
    (hterm : reachesRoot db db.length cid = true) :
    (breadcrumbTrail db db.length cid).getLast? = some cid
    ∧ (∃ r, (breadcrumbTrail db db.length cid).head? = some r ∧
        parentOf db r = none)
    ∧ List.Chain' (fun a b => parentOf db b = some a)
        (breadcrumbTrail db db.length cid) := by
  have h : iterParent db db.length cid = none := by
    simpa [reachesRoot, Option.isNone_iff_eq_none] using hterm
  exact ⟨breadcrumbTrail_getLast db db.length cid,
    breadcrumbTrail_head_root h, breadcrumbTrail_chain h⟩

/-- Witness for C7 on the chain `1 ← 2 ← 3`: the trail of category 3 ends at
3 and each step descends from the stored parent. -/
theorem C7_breadcrumbs_root_to_node_witness :
    (breadcrumbTrail dbChain3 dbChain3.length 3).getLast? = some 3
    ∧ List.Chain' (fun a b => parentOf dbChain3 b = some a)
        (breadcrumbTrail dbChain3 dbChain3.length 3) :=
  ⟨(C7_breadcrumbs_root_to_node dbChain3 3 (by decide)).1,
   (C7_breadcrumbs_root_to_node dbChain3 3 (by decide)).2.2⟩

/-! ## Claim C9 -/

/-- Counterexample to C9 as stated: a non-numeric `limit` on the
latest-products endpoint does not degrade to "ignore this filter" — the bare
`int()` call raises, surfacing as an error, not a normal result. -/
theorem C9_counterexample_latest_limit :
    latestEndpoint [] [] noParams (some "abc") =
      Except.error ApiError.valueError := rfl

/-- C9 as amended.  A malformed `limit` is ignored only where the code
guards the parse: the category-products endpoint (its `try/except
ValueError: pass`) returns the unlimited result; the latest-products and
popular-categories endpoints parse `limit` with a bare `int()` and fail
with `ValueError`; and the explicitly validated empty search query fails
with its dedicated 400. -/
theorem C9_malformed_params_amended (ps : List Product)
    (cats : List Category) (pr : ProductListParams) (cid : Nat)
    (includeSub : Bool) (s : String) (hs : pyInt? s = none)
    (hne : s ≠ "") :
    categoryProductsEndpoint ps cats cid includeSub (some s) =
      categoryProductsEndpoint ps cats cid includeSub none
    ∧ latestEndpoint ps cats pr (some s) = Except.error ApiError.valueError
    ∧ categoriesPopularEndpoint cats ps (some s) =
        Except.error ApiError.valueError
    ∧ searchEndpoint ps cats pr "" = Except.error ApiError.emptySearchQuery := by
  refine ⟨?_, ?_, ?_, ?_⟩
  · unfold categoryProductsEndpoint
    simp [hne, hs]
  · unfold latestEndpoint
    simp [hs]
  · unfold categoriesPopularEndpoint
    simp [hs]
  · rfl

/-- Witness for the amended C9 at the concrete malformed limit "abc". -/
theorem C9_malformed_params_amended_witness :
    categoryProductsEndpoint [] [] 1 false (some "abc") =
      categoryProductsEndpoint [] [] 1 false none
    ∧ latestEndpoint [] [] noParams (some "abc") =
        Except.error ApiError.valueError
    ∧ categoriesPopularEndpoint [] [] (some "abc") =
        Except.error ApiError.valueError
    ∧ searchEndpoint [] [] noParams "" =
        Except.error ApiError.emptySearchQuery :=
  C9_malformed_params_amended [] [] noParams 1 false "abc" (by rfl) (by decide)

end ECommerce
